import Mathlib

/-!
Verification of `os_doc_tools/dn2osdbk.py` (DocUtils-Native-XML to DocBook
converter).  The Python module is shallowly embedded: XML trees become the
inductive `XNode`, the pure per-tree passes (`_custom_transform`, id
normalization) become Lean functions, the `%`-formatting used by
`write_index` is modelled by `pyFormat`, and the stateful directory walk of
`BaseFolderTransformer.transform` becomes a function returning the ordered
trace of filesystem writes.  The external XSLT stylesheet is an opaque
collaborator per the spec, so per-file conversion content is a parameter.
-/

/-- An lxml-style XML node: an element with a tag, an ordered attribute
list, optional text and a list of children, or a comment node.  This is the
shape of the trees `dn2osdbk.py` manipulates. -/
inductive XNode where
  | elem (tag : String) (attrs : List (String × String)) (text : Option String)
      (children : List XNode)
  | comment (s : String)

/-- The Clark-notation `xml:id` attribute key used by the source
(`'%sid' % XML_NS`). -/
def idAttrib : String := "\x7bhttp://www.w3.org/XML/1998/namespace\x7did"

/-- The DocBook namespace prefix used when retagging the root
(`'\x7bhttp://docbook.org/ns/docbook\x7d%s' % self.toplevel`). -/
def docbookNs : String := "\x7bhttp://docbook.org/ns/docbook\x7d"

/-- Text of the autogeneration warning comment inserted by
`_custom_transform`. -/
def autogenWarning : String :=
  "WARNING: This file is automatically generated. Do not edit it."

/-- `item.get(key)`: first attribute with the given key, if any. -/
def getAttr (key : String) (attrs : List (String × String)) : Option String :=
  (attrs.find? (fun p => p.1 = key)).map Prod.snd

/-- `item.attrib[key] = v` on an existing key: lxml keeps the attribute in
place, so we update every pair whose key matches. -/
def setAttr (key v : String) (attrs : List (String × String)) :
    List (String × String) :=
  attrs.map (fun p => if p.1 = key then (key, v) else p)

/-- Python's `xml_id.split(' ')` on the character list: split on the single
space character, keeping empty fields; always returns a nonempty list. -/
def splitSp : List Char → List (List Char)
  | [] => [[]]
  | c :: rest =>
    let r := splitSp rest
    if c = ' ' then [] :: r
    else (c :: r.headD []) :: r.tail

/-- `re.match(r'id\d+', s)`: the string starts with `id` followed by at
least one digit (a prefix match, as `re.match` is). -/
def isAutoId (s : String) : Bool :=
  match s.data with
  | 'i' :: 'd' :: c :: _ => c.isDigit
  | _ => false

/-- The id-choice of `_custom_transform`: with several space-separated ids
whose last looks auto-generated take the first, otherwise the last. -/
def chooseId (ids : List (List Char)) : List Char :=
  if 1 < ids.length ∧ isAutoId (String.mk (ids.getLastD [])) then ids.headD []
  else ids.getLastD []

/-- The full id rewrite applied to one `xml:id` attribute value. -/
def normalizeXmlId (v : String) : String :=
  String.mk (chooseId (splitSp v.data))

/-- The attribute update of the `tree.iter()` loop in `_custom_transform`:
if the element has an `xml:id`, replace it by `normalizeXmlId`; otherwise
leave the attributes alone. -/
def normAttrs (attrs : List (String × String)) : List (String × String) :=
  match getAttr idAttrib attrs with
  | none => attrs
  | some v => setAttr idAttrib (normalizeXmlId v) attrs

mutual

/-- The id-normalization pass of `_custom_transform` over a whole tree:
every element (the root included) has its `xml:id` rewritten; comments, tag
names, text and order are untouched. -/
def normN : XNode → XNode
  | .comment s => .comment s
  | .elem tag attrs tx cs => .elem tag (normAttrs attrs) tx (normL cs)

/-- `normN` mapped over a list of siblings. -/
def normL : List XNode → List XNode
  | [] => []
  | c :: cs => normN c :: normL cs

end

/-- `XMLFileTransformer._custom_transform`: retag the root into the DocBook
namespace, insert the autogeneration warning comment at position `0`, then
run the id-normalization loop over the whole tree.  lxml's `getroot` hands
back an element; a comment root has no retaggable tag, hence `Option`. -/
def customTransform (toplevel : String) : XNode → Option XNode
  | .elem _ attrs tx cs =>
    some (normN (.elem (docbookNs ++ toplevel) attrs tx
      (.comment autogenWarning :: cs)))
  | .comment _ => none

mutual

/-- Attribute lists of all elements of a tree in document (pre-)order, the
order `tree.iter()` visits them. -/
def attrsOfTree : XNode → List (List (String × String))
  | .comment _ => []
  | .elem _ attrs _ cs => attrs :: attrsOfTreeL cs

/-- `attrsOfTree` over a sibling list. -/
def attrsOfTreeL : List XNode → List (List (String × String))
  | [] => []
  | c :: cs => attrsOfTree c ++ attrsOfTreeL cs

end

mutual

/-- Number of autogeneration warning comments in a tree. -/
def countAutogen : XNode → Nat
  | .comment s => if s = autogenWarning then 1 else 0
  | .elem _ _ _ cs => countAutogenL cs

/-- `countAutogen` over a sibling list. -/
def countAutogenL : List XNode → Nat
  | [] => 0
  | c :: cs => countAutogen c + countAutogenL cs

end

/-- The tag of a tree's root element (`""` for a comment). -/
def rootTag : XNode → String
  | .elem tag _ _ _ => tag
  | .comment _ => ""

/-- The first child of a tree's root element, if any. -/
def firstChild : XNode → Option XNode
  | .elem _ _ _ (c :: _) => some c
  | _ => none

/-- Chars strictly after the first closing brace. -/
def afterBrace : List Char → List Char
  | [] => []
  | c :: rest => if c = Char.ofNat 125 then rest else afterBrace rest

/-- The local part of a Clark-notation tag (`lxml.QName(...).localname`):
the text after the closing brace when one is present, the tag itself
otherwise. -/
def localName (s : String) : String :=
  if s.data.contains (Char.ofNat 125) then String.mk (afterBrace s.data)
  else s

/-! ## Index parsing (`BaseFolderTransformer.parse_index`) -/

/-- Errors surfaced by the folder pipeline.  They stand for the Python
exceptions the corresponding lines raise: `missingRefuri` for the
`TypeError` of `'#' in None`, `missingTitle` for the `AttributeError` of
`find('section/title').text` when `find` returns `None`, `noneTitle` for
the `AttributeError` of `None.lower()` in `write_index`, and the format
errors of `%`-interpolation. -/
inductive FolderErr where
  | missingRefuri
  | missingTitle
  | noneTitle
  | keyError
  | unsupportedConv (c : Char)
  | incompleteFormat
  | outOfFuel
  | convFail (name : String)
deriving DecidableEq

/-- The `refuri` attribute of a node (`reference.get('refuri')`). -/
def refuriOf : XNode → Option String
  | .elem _ attrs _ _ => getAttr "refuri" attrs
  | .comment _ => none

mutual

/-- `src_xml.iter('reference')`: every element tagged `reference`, anywhere
in the document, in document (pre-)order. -/
def referencesOf : XNode → List XNode
  | .comment _ => []
  | .elem tag attrs tx cs =>
    (if tag = "reference" then [XNode.elem tag attrs tx cs] else []) ++
      referencesOfL cs

/-- `referencesOf` over a sibling list. -/
def referencesOfL : List XNode → List XNode
  | [] => []
  | c :: cs => referencesOf c ++ referencesOfL cs

end

/-- The loop body of `parse_index` over the reference list: a reference
without `refuri` raises (`'#' in None` is a `TypeError`), one whose
`refuri` contains `#` is skipped, the rest contribute
`"%s_%s.xml" % (file_toplevel, refuri)` in document order. -/
def collectIncludes (fileToplevel : String) : List XNode →
    Except FolderErr (List String)
  | [] => .ok []
  | r :: rs =>
    match refuriOf r with
    | none => .error .missingRefuri
    | some u =>
      if u.data.contains '#' then collectIncludes fileToplevel rs
      else do
        let rest ← collectIncludes fileToplevel rs
        return (fileToplevel ++ "_" ++ u ++ ".xml") :: rest

/-- First `title` child of an element list, yielding its text
(`.text` may be `None`, hence the inner `Option`). -/
def firstTitleText : List XNode → Option (Option String)
  | [] => none
  | .elem tag _ tx _ :: rest =>
    if tag = "title" then some tx else firstTitleText rest
  | .comment _ :: rest => firstTitleText rest

/-- Helper of `findSectionTitle` walking the root's children. -/
def findSectionTitleL : List XNode → Option (Option String)
  | [] => none
  | .elem tag _ _ gcs :: rest =>
    if tag = "section" then
      match firstTitleText gcs with
      | some t => some t
      | none => findSectionTitleL rest
    else findSectionTitleL rest
  | .comment _ :: rest => findSectionTitleL rest

/-- `src_xml.find('section/title')` followed by `.text`: for each `section`
child of the root in order, the first `title` child; the first hit wins. -/
def findSectionTitle : XNode → Option (Option String)
  | .comment _ => none
  | .elem _ _ _ cs => findSectionTitleL cs

/-- `BaseFolderTransformer.parse_index` on the parsed index document:
collect the include file names from the `reference` elements, then extract
the title text of the first `section/title` element (failing when there is
none — the reference loop runs first, so a missing `refuri` wins). -/
def parseIndex (fileToplevel : String) (doc : XNode) :
    Except FolderErr (List String × Option String) := do
  let incs ← collectIncludes fileToplevel (referencesOf doc)
  match findSectionTitle doc with
  | none => .error .missingTitle
  | some t => return (incs, t)

/-! ## Python `%`-formatting with a mapping (`template % {...}`)

`write_index` builds its output with `'...%(key)s...' % dict`.  `pyFormat`
models that operator for the directives the two templates contain: a
`%(key)` group must be followed by a conversion character; `s` substitutes
the mapping's value, any other character is the `ValueError: unsupported
format character` Python raises (the chapter template's `%(title)` is
followed by `<`, which is exactly such an error); `%%` is a literal `%`.
Flags, width and precision never occur in the templates and are not
modelled.  Fuel is the input length, so it never runs out. -/

/-- Fuel-indexed interpreter of Python `%`-formatting with a mapping. -/
def pyFormatAux (m : String → Option String) :
    Nat → List Char → Except FolderErr (List Char)
  | 0, _ => .error .outOfFuel
  | _ + 1, [] => .ok []
  | n + 1, c :: rest =>
    if c = '%' then
      match rest with
      | '(' :: r2 =>
        let key := r2.takeWhile (fun d => d ≠ ')')
        if r2.length ≤ key.length then .error .incompleteFormat
        else
          match r2.drop (key.length + 1) with
          | 's' :: r3 =>
            match m (String.mk key) with
            | some v => (pyFormatAux m n r3).map (fun t => v.data ++ t)
            | none => .error .keyError
          | c2 :: _ => .error (.unsupportedConv c2)
          | [] => .error .incompleteFormat
      | '%' :: r2 => (pyFormatAux m n r2).map (fun t => '%' :: t)
      | _ => .error .incompleteFormat
    else (pyFormatAux m n rest).map (fun t => c :: t)

/-- `fmt % m` for a format string and a mapping. -/
def pyFormat (m : String → Option String) (fmt : String) :
    Except FolderErr String :=
  (pyFormatAux m (fmt.data.length + 1) fmt.data).map String.mk

/-! ## The two `write_index` variants -/

/-- `self.title.lower().replace(' ', '-')`: lower-case every character,
then turn spaces into hyphens (char-list level so it evaluates in the
kernel). -/
def xmlIdOfTitle (t : String) : String :=
  String.mk (t.data.map (fun c =>
    let lc := c.toLower
    if lc = ' ' then '-' else lc))

/-- `sep.join(strings)`. -/
def joinWith (sep : String) : List String → String
  | [] => ""
  | [x] => x
  | x :: xs => x ++ sep ++ joinWith sep xs

/-- `"\n    ".join('<xi:include href="%s"/>' % i for i in includes)`. -/
def xincludeLines (includes : List String) : String :=
  joinWith "\n    "
    (includes.map (fun i => "<xi:include href=\"" ++ i ++ "\"/>"))

/-- The mapping `{'xml_id': .., 'title': .., 'includes': ..}`. -/
def indexMapping (xmlId title includes : String) : String → Option String :=
  fun k =>
    if k = "xml_id" then some xmlId
    else if k = "title" then some title
    else if k = "includes" then some includes
    else none

/-- The template literal of `BookTransformer.write_index`, verbatim. -/
def bookIndexTemplate : String :=
  "<?xml version=\"1.0\" encoding=\"UTF-8\"?>\n<!DOCTYPE book [\n]>\n<book xmlns=\"http://docbook.org/ns/docbook\"\n  xmlns:xi=\"http://www.w3.org/2001/XInclude\"\n  xmlns:xlink=\"http://www.w3.org/1999/xlink\"\n  version=\"5.0\"\n  xml:id=\"%(xml_id)s\">\n\n    <!-- WARNING: This file is automatically generated. Do not edit it. -->\n\n    <title>%(title)s</title>\n    %(includes)s\n</book>\n"

/-- The template literal of `ChapterTransformer.write_index`, verbatim —
note `%(title)` with no conversion character before `</title>`. -/
def chapterIndexTemplate : String :=
  "<?xml version=\"1.0\" encoding=\"UTF-8\"?>\n<chapter xmlns=\"http://docbook.org/ns/docbook\"\n  xmlns:xi=\"http://www.w3.org/2001/XInclude\"\n  xmlns:xlink=\"http://www.w3.org/1999/xlink\"\n  version=\"5.0\"\n  xml:id=\"%(xml_id)s\">\n\n    <!-- WARNING: This file is automatically generated. Do not edit it. -->\n\n    <title>%(title)</title>\n    %(includes)s\n</chapter>\n"

/-- `BookTransformer.write_index` as a function of the parsed state: a
`None` title makes `self.title.lower()` raise before anything is formatted;
otherwise the book template is interpolated and the result is the content
written to `index.xml`. -/
def bookWriteIndex (title : Option String) (includes : List String) :
    Except FolderErr String :=
  match title with
  | none => .error .noneTitle
  | some t =>
    pyFormat (indexMapping (xmlIdOfTitle t) t (xincludeLines includes))
      bookIndexTemplate

/-- `ChapterTransformer.write_index`, identical but for its template. -/
def chapterWriteIndex (title : Option String) (includes : List String) :
    Except FolderErr String :=
  match title with
  | none => .error .noneTitle
  | some t =>
    pyFormat (indexMapping (xmlIdOfTitle t) t (xincludeLines includes))
      chapterIndexTemplate

/-! ## Directory mode (`BaseFolderTransformer.transform` / `__init__`)

Per-file conversion goes through the opaque XSLT stylesheet and the
filesystem, so it enters the model as a parameter
`conv : String → Except FolderErr String` mapping a source file's basename
to the serialized output of `XMLFileTransformer(src, file_toplevel)
.transform()` or to the exception it raises.  File paths are
`source_dir + '/' + basename`, so the loop's `src.endswith('/index.xml')`
guard is `basename = "index.xml"`. -/

/-- One filesystem effect of the folder pipeline. -/
inductive FsOp where
  | mkdir
  | write (name content : String)
deriving DecidableEq

/-- The `for src in files` loop: skip the index, convert each file and
write it as `<file_toplevel>_<basename>`, stopping at the first failing
conversion.  Returns the writes made, in order, and the terminal error if
one occurred. -/
def convertLoop (fileToplevel : String) (conv : String → Except FolderErr String) :
    List String → List (String × String) × Option FolderErr
  | [] => ([], none)
  | f :: fs =>
    if f = "index.xml" then convertLoop fileToplevel conv fs
    else
      match conv f with
      | .error e => ([], some e)
      | .ok x =>
        let r := convertLoop fileToplevel conv fs
        ((fileToplevel ++ "_" ++ f, x) :: r.1, r.2)

/-- `BaseFolderTransformer.transform`: run the conversion loop, then — only
when it raised nothing — write the synthesized `index.xml` whose content is
`writeIdx` (itself fallible, see the two `write_index` variants). -/
def folderTransform (fileToplevel : String)
    (conv : String → Except FolderErr String)
    (writeIdx : Except FolderErr String) (files : List String) :
    List (String × String) × Option FolderErr :=
  let r := convertLoop fileToplevel conv files
  match r.2 with
  | some e => (r.1, some e)
  | none =>
    match writeIdx with
    | .error e => (r.1, some e)
    | .ok s => (r.1 ++ [("index.xml", s)], none)

/-- The whole folder pipeline in construction-then-transform order:
`__init__` first runs `parse_index` (any failure there happens before
anything touches the filesystem), then creates the output directory when
absent, and `transform` performs the conversion loop and the index write.
The result is the ordered effect trace plus the terminal error, if any. -/
def folderRun (fileToplevel : String)
    (writeIdx : Option String → List String → Except FolderErr String)
    (conv : String → Except FolderErr String) (dirExists : Bool)
    (files : List String) (indexDoc : XNode) :
    List FsOp × Option FolderErr :=
  match parseIndex fileToplevel indexDoc with
  | .error e => ([], some e)
  | .ok (incs, title) =>
    let pre : List FsOp := if dirExists then [] else [FsOp.mkdir]
    let r := folderTransform fileToplevel conv (writeIdx title incs) files
    (pre ++ r.1.map (fun p => FsOp.write p.1 p.2), r.2)

/-- `BookTransformer` run: `file_toplevel = 'chapter'`, book index. -/
def bookRun := folderRun "chapter" bookWriteIndex

/-- `ChapterTransformer` run: `file_toplevel = 'section'`, chapter index. -/
def chapterRun := folderRun "section" chapterWriteIndex

/-- Names of the `write` effects of a trace, in order. -/
def fsWriteNames : List FsOp → List String
  | [] => []
  | .mkdir :: rest => fsWriteNames rest
  | .write n _ :: rest => n :: fsWriteNames rest

/-- Content of the first `write` effect with the given name. -/
def writeNamed (ops : List FsOp) (n : String) : Option String :=
  match ops with
  | [] => none
  | .mkdir :: rest => writeNamed rest n
  | .write m c :: rest => if m = n then some c else writeNamed rest n

/-- Substring test on character lists (quadratic, good enough for
checking concrete outputs). -/
def containsSub (hay needle : List Char) : Bool :=
  match hay with
  | [] => needle.isEmpty
  | _ :: rest => needle.isPrefixOf hay || containsSub rest needle

/-- `containsSub` through an `Option String`. -/
def optContains (o : Option String) (pat : String) : Bool :=
  match o with
  | some s => containsSub s.data pat.data
  | none => false


def indexDoc3 : XNode :=
  .elem "document" [] none
    [.elem "section" [] none
      [.elem "title" [] (some "Release Notes") [],
       .elem "reference" [("refuri", "foo")] none [],
       .elem "reference" [("refuri", "bar")] none []]]


/-! ## Helper lemmas: splitting on spaces -/

/-- `splitSp` never returns the empty list. -/
theorem splitSp_ne_nil (cs : List Char) : splitSp cs ≠ [] := by
  cases cs with
  | nil => simp [splitSp]
  | cons c rest =>
    simp only [splitSp]
    split <;> simp

/-- Every field produced by `splitSp` is free of spaces. -/
theorem splitSp_no_space (cs : List Char) :
    ∀ t ∈ splitSp cs, ' ' ∉ t := by
  induction cs with
  | nil => intro t ht; simp [splitSp] at ht; simp [ht]
  | cons c rest ih =>
    intro t ht
    simp only [splitSp] at ht
    by_cases hc : c = ' '
    · rw [if_pos hc] at ht
      rcases List.mem_cons.mp ht with h | h
      · simp [h]
      · exact ih t h
    · rw [if_neg hc] at ht
      obtain ⟨h0, r', hr⟩ : ∃ h0 r', splitSp rest = h0 :: r' := by
        cases hr : splitSp rest with
        | nil => exact absurd hr (splitSp_ne_nil rest)
        | cons a b => exact ⟨a, b, rfl⟩
      rw [hr] at ht
      simp only [List.headD_cons, List.tail_cons] at ht
      rcases List.mem_cons.mp ht with h | h
      · subst h
        intro hmem
        rcases List.mem_cons.mp hmem with h' | h'
        · exact hc h'.symm
        · exact ih h0 (hr ▸ List.mem_cons_self h0 r') h'
      · exact ih t (hr ▸ List.mem_cons_of_mem h0 h)

/-- A space-free character list splits into itself alone. -/
theorem splitSp_of_no_space (cs : List Char) (h : ∀ c ∈ cs, c ≠ ' ') :
    splitSp cs = [cs] := by
  induction cs with
  | nil => simp [splitSp]
  | cons c rest ih =>
    have hc : c ≠ ' ' := h c (List.mem_cons_self c rest)
    have hr : splitSp rest = [rest] :=
      ih (fun d hd => h d (List.mem_cons_of_mem c hd))
    simp [splitSp, hc, hr]

/-- Splitting a space-free block followed by a space peels off the block. -/
theorem splitSp_append_space (xs ys : List Char) (h : ∀ c ∈ xs, c ≠ ' ') :
    splitSp (xs ++ ' ' :: ys) = xs :: splitSp ys := by
  induction xs with
  | nil => simp [splitSp]
  | cons x xs ih =>
    have hx : x ≠ ' ' := h x (List.mem_cons_self x xs)
    have hr : splitSp (xs ++ ' ' :: ys) = xs :: splitSp ys :=
      ih (fun d hd => h d (List.mem_cons_of_mem x hd))
    simp [splitSp, hx, hr]

/-- Joining space-free tokens with single spaces and resplitting recovers
exactly the tokens. -/
theorem splitSp_joinWith (toks : List String) (hne : toks ≠ [])
    (hsp : ∀ s ∈ toks, ' ' ∉ s.data) :
    splitSp (joinWith " " toks).data = toks.map String.data := by
  induction toks with
  | nil => exact absurd rfl hne
  | cons t ts ih =>
    cases ts with
    | nil =>
      have : ∀ c ∈ t.data, c ≠ ' ' := by
        intro c hcmem hcsp
        exact hsp t (List.mem_cons_self t []) (hcsp ▸ hcmem)
      simp [joinWith, splitSp_of_no_space t.data this]
    | cons t2 ts2 =>
      have hdata : (joinWith " " (t :: t2 :: ts2)).data
          = t.data ++ ' ' :: (joinWith " " (t2 :: ts2)).data := by
        show (t ++ " " ++ joinWith " " (t2 :: ts2)).data = _
        rw [String.data_append, String.data_append]
        simp
      have hfree : ∀ c ∈ t.data, c ≠ ' ' := by
        intro c hcmem hcsp
        exact hsp t (List.mem_cons_self t _) (hcsp ▸ hcmem)
      rw [hdata, splitSp_append_space t.data _ hfree,
        ih (by simp) (fun s hs => hsp s (List.mem_cons_of_mem t hs))]
      rfl

/-- `getLastD` commutes with mapping `String.data`. -/
theorem map_data_getLastD (l : List String) (d : String) :
    (l.map String.data).getLastD d.data = (l.getLastD d).data := by
  induction l generalizing d with
  | nil => rfl
  | cons a l ih =>
    rw [List.map_cons, List.getLastD_cons, List.getLastD_cons]
    exact ih a

/-- `headD` commutes with mapping `String.data`. -/
theorem map_data_headD (l : List String) (d : String) :
    (l.map String.data).headD d.data = (l.headD d).data := by
  cases l <;> rfl

/-- The last element of a nonempty list, with any default, is a member. -/
theorem getLastD_mem {α : Type} (l : List α) (d : α) (h : l ≠ []) :
    l.getLastD d ∈ l := by
  induction l generalizing d with
  | nil => exact absurd rfl h
  | cons a l ih =>
    cases l with
    | nil => simp
    | cons b l2 =>
      rw [List.getLastD_cons]
      exact List.mem_cons_of_mem a (ih a (by simp))

/-- The id the disambiguation rule picks is one of the split fields. -/
theorem chooseId_mem (ids : List (List Char)) (h : ids ≠ []) :
    chooseId ids ∈ ids := by
  unfold chooseId
  split
  · obtain ⟨a, l, rfl⟩ : ∃ a l, ids = a :: l := by
      cases ids with
      | nil => exact absurd rfl h
      | cons a l => exact ⟨a, l, rfl⟩
    simp
  · exact getLastD_mem ids [] h

/-- `normalizeXmlId` always returns a single space-free token, so running
it a second time changes nothing. -/
theorem normalizeXmlId_idem (v : String) :
    normalizeXmlId (normalizeXmlId v) = normalizeXmlId v := by
  unfold normalizeXmlId
  have hmem : chooseId (splitSp v.data) ∈ splitSp v.data :=
    chooseId_mem _ (splitSp_ne_nil v.data)
  have hfree : ' ' ∉ chooseId (splitSp v.data) :=
    splitSp_no_space v.data _ hmem
  have hsplit : splitSp (String.mk (chooseId (splitSp v.data))).data
      = [chooseId (splitSp v.data)] := by
    apply splitSp_of_no_space
    intro c hc hceq
    exact hfree (hceq ▸ hc)
  rw [hsplit]
  unfold chooseId
  simp

/-- Reading the id attribute after writing it yields the written value
(when the key was present). -/
theorem getAttr_setAttr (k v : String) (attrs : List (String × String)) :
    getAttr k (setAttr k v attrs) = (getAttr k attrs).map (fun _ => v) := by
  induction attrs with
  | nil => rfl
  | cons p rest ih =>
    by_cases hp : p.1 = k
    · simp [getAttr, setAttr, List.find?, hp]
    · simp only [getAttr, setAttr, List.map_cons, if_neg hp, List.find?]
      simp only [getAttr, setAttr] at ih
      rw [decide_eq_false hp]
      exact ih

/-- Writing the same key twice keeps only the second value. -/
theorem setAttr_setAttr (k v w : String) (attrs : List (String × String)) :
    setAttr k v (setAttr k w attrs) = setAttr k v attrs := by
  unfold setAttr
  rw [List.map_map]
  apply List.map_congr_left
  intro p _
  by_cases hp : p.1 = k <;> simp [hp]

/-- The per-element attribute rewrite is idempotent. -/
theorem normAttrs_idem (attrs : List (String × String)) :
    normAttrs (normAttrs attrs) = normAttrs attrs := by
  unfold normAttrs
  cases h : getAttr idAttrib attrs with
  | none => simp [h]
  | some v =>
    simp only [h]
    rw [getAttr_setAttr, h]
    simp [setAttr_setAttr, normalizeXmlId_idem]

mutual

/-- Tree-level idempotence of the id-normalization pass. -/
theorem normN_idem_aux (n : XNode) : normN (normN n) = normN n := by
  cases n with
  | comment s => rfl
  | elem tag attrs tx cs =>
    simp [normN, normAttrs_idem, normL_idem_aux cs]

/-- List-level idempotence of the id-normalization pass. -/
theorem normL_idem_aux (l : List XNode) : normL (normL l) = normL l := by
  cases l with
  | nil => rfl
  | cons c cs => simp [normL, normN_idem_aux c, normL_idem_aux cs]

end

mutual

/-- The normalization pass rewrites exactly the attribute lists, element by
element in document order, leaving the element structure intact. -/
theorem attrsOfTree_normN (n : XNode) :
    attrsOfTree (normN n) = (attrsOfTree n).map normAttrs := by
  cases n with
  | comment s => rfl
  | elem tag attrs tx cs =>
    simp [normN, attrsOfTree, attrsOfTreeL_normL cs]

/-- List version of `attrsOfTree_normN`. -/
theorem attrsOfTreeL_normL (l : List XNode) :
    attrsOfTreeL (normL l) = (attrsOfTreeL l).map normAttrs := by
  cases l with
  | nil => rfl
  | cons c cs =>
    simp [normL, attrsOfTreeL, attrsOfTree_normN c, attrsOfTreeL_normL cs]

end

mutual

/-- Id normalization inserts or removes no comments. -/
theorem countAutogen_normN (n : XNode) :
    countAutogen (normN n) = countAutogen n := by
  cases n with
  | comment s => rfl
  | elem tag attrs tx cs => simp [normN, countAutogen, countAutogenL_normL cs]

/-- List version of `countAutogen_normN`. -/
theorem countAutogenL_normL (l : List XNode) :
    countAutogenL (normL l) = countAutogenL l := by
  cases l with
  | nil => rfl
  | cons c cs =>
    simp [normL, countAutogenL, countAutogen_normN c, countAutogenL_normL cs]

end

/-- C2: for every element in the transformed tree (the root included) the
id-normalization pass rewrites exactly the `xml:id` attribute; an element
without the attribute keeps its attribute list; and on a value that is a
space-separated token list the rewritten value is the single token picked
by the rule: keep a lone token, take the first token when the last matches
the auto-id pattern `id<digits>`, otherwise take the last token. -/
theorem C2_id_normalization (t : XNode) (attrs : List (String × String))
    (toks : List String)
    (hnone : getAttr idAttrib attrs = none)
    (hne : toks ≠ []) (hsp : ∀ s ∈ toks, ' ' ∉ s.data) :
    attrsOfTree (normN t) = (attrsOfTree t).map normAttrs
    ∧ normAttrs attrs = attrs
    ∧ normalizeXmlId (joinWith " " toks)
        = if 1 < toks.length ∧ isAutoId (toks.getLastD "") then toks.headD ""
          else toks.getLastD "" := by
  refine ⟨attrsOfTree_normN t, by simp [normAttrs, hnone], ?_⟩
  unfold normalizeXmlId
  rw [splitSp_joinWith toks hne hsp]
  unfold chooseId
  have h1 : (toks.map String.data).getLastD ([] : List Char)
      = (toks.getLastD "").data := map_data_getLastD toks ""
  have h2 : (toks.map String.data).headD ([] : List Char)
      = (toks.headD "").data := map_data_headD toks ""
  rw [List.length_map, h1, h2, apply_ite String.mk]

/-- Witness for `C2_id_normalization` at a concrete tree, attribute list
and token list, with all hypotheses discharged by evaluation. -/
theorem C2_id_normalization_witness :
    attrsOfTree (normN (XNode.elem "document" [(idAttrib, "intro id123")] none
        [XNode.elem "para" [("class", "x")] none []]))
      = (attrsOfTree (XNode.elem "document" [(idAttrib, "intro id123")] none
        [XNode.elem "para" [("class", "x")] none []])).map normAttrs
    ∧ normAttrs [("class", "x")] = [("class", "x")]
    ∧ normalizeXmlId (joinWith " " ["intro", "id123"])
        = if 1 < (["intro", "id123"] : List String).length
            ∧ isAutoId ((["intro", "id123"] : List String).getLastD "")
          then (["intro", "id123"] : List String).headD ""
          else (["intro", "id123"] : List String).getLastD "" :=
  C2_id_normalization _ _ _ (by decide) (by decide) (by decide)

/-- C8: the id-normalization pass is idempotent: running it a second time
over any tree changes nothing (in particular no attribute value changes). -/
theorem C8_normalization_idempotent (t : XNode) :
    normN (normN t) = normN t :=
  normN_idem_aux t

/-- C7: for any requested toplevel tag among `book`, `chapter` and
`section`, `_custom_transform` succeeds on any element root, the local name
of the resulting root is the requested tag, the first child of the result
is the autogeneration warning comment, and exactly one such comment was
inserted (the count grows by one). -/
theorem C7_custom_transform_root (top tg : String)
    (attrs : List (String × String)) (tx : Option String) (cs : List XNode)
    (h : top ∈ (["book", "chapter", "section"] : List String)) :
    ((customTransform top (XNode.elem tg attrs tx cs)).map
        (fun r => localName (rootTag r))) = some top
    ∧ ((customTransform top (XNode.elem tg attrs tx cs)).bind firstChild)
        = some (XNode.comment autogenWarning)
    ∧ ((customTransform top (XNode.elem tg attrs tx cs)).map countAutogen)
        = some (countAutogen (XNode.elem tg attrs tx cs) + 1) := by
  have hct : customTransform top (XNode.elem tg attrs tx cs)
      = some (XNode.elem (docbookNs ++ top) (normAttrs attrs) tx
          (XNode.comment autogenWarning :: normL cs)) := by
    simp [customTransform, normN, normL]
  refine ⟨?_, ?_, ?_⟩
  · rw [hct]
    simp only [Option.map_some', rootTag, Option.some.injEq]
    fin_cases h <;> decide
  · rw [hct]
    rfl
  · rw [hct]
    simp [countAutogen, countAutogenL, countAutogenL_normL, autogenWarning,
      Nat.add_comm]

/-- Witness for `C7_custom_transform_root` at the `chapter` tag and a
concrete root element. -/
theorem C7_custom_transform_root_witness :
    ((customTransform "chapter" (XNode.elem "document" [] none [])).map
        (fun r => localName (rootTag r))) = some "chapter"
    ∧ ((customTransform "chapter" (XNode.elem "document" [] none [])).bind
        firstChild) = some (XNode.comment autogenWarning)
    ∧ ((customTransform "chapter" (XNode.elem "document" [] none [])).map
        countAutogen)
        = some (countAutogen (XNode.elem "document" [] none []) + 1) :=
  C7_custom_transform_root "chapter" "document" [] none [] (by decide)

set_option maxRecDepth 40000 in
/-- C1: the two folder variants do NOT behave identically up to tag
vocabulary: with a parsed index carrying a title, the chapter variant's
`write_index` always raises — its template reads `%(title)` with no
conversion character, so Python `%`-formatting hits the `<` of `</title>`
and raises `ValueError: unsupported format character` — while the book
variant succeeds and emits the title element.  This evaluates both at the
same parsed state. -/
theorem C1_chapter_write_index_raises :
    chapterWriteIndex (some "Release Notes") ["section_foo.xml"]
      = Except.error (FolderErr.unsupportedConv '<')
    ∧ optContains (bookWriteIndex (some "Release Notes")
        ["chapter_foo.xml"]).toOption "<title>Release Notes</title>" = true :=
  ⟨rfl, by decide⟩

/-! ## Directory-loop lemmas -/

/-- When every non-index file converts, the loop writes exactly one output
per non-index file, named `<file_toplevel>_<basename>`, in order, and ends
without an error. -/
theorem convertLoop_ok (ft : String) (conv : String → Except FolderErr String)
    (files : List String)
    (h : ∀ f ∈ files, f ≠ "index.xml" → ∃ x, conv f = Except.ok x) :
    (convertLoop ft conv files).1.map Prod.fst
      = (files.filter (fun f => f ≠ "index.xml")).map (fun f => ft ++ "_" ++ f)
    ∧ (convertLoop ft conv files).2 = none := by
  induction files with
  | nil => exact ⟨rfl, rfl⟩
  | cons f fs ih =>
    have ih' := ih (fun g hg => h g (List.mem_cons_of_mem _ hg))
    by_cases hf : f = "index.xml"
    · subst hf
      simp only [convertLoop, if_pos rfl]
      simpa [List.filter_cons] using ih'
    · obtain ⟨x, hx⟩ := h f (List.mem_cons_self f fs) hf
      simp only [convertLoop, if_neg hf, hx]
      simp [List.filter_cons, hf, ih'.1, ih'.2]

/-- If every file before `f` converts (or is the index), `f` is not the
index and its conversion fails, the loop stops at `f`: it has written only
the outputs of the preceding files and surfaces the error. -/
theorem convertLoop_error (ft : String)
    (conv : String → Except FolderErr String) (pre post : List String)
    (f : String) (e : FolderErr)
    (hpre : ∀ g ∈ pre, g ≠ "index.xml" → ∃ x, conv g = Except.ok x)
    (hf : f ≠ "index.xml") (he : conv f = Except.error e) :
    (convertLoop ft conv (pre ++ f :: post)).1.map Prod.fst
      = (pre.filter (fun g => g ≠ "index.xml")).map (fun g => ft ++ "_" ++ g)
    ∧ (convertLoop ft conv (pre ++ f :: post)).2 = some e := by
  induction pre with
  | nil => simp [convertLoop, if_neg hf, he]
  | cons g pre ih =>
    have ih' := ih (fun g' hg' => hpre g' (List.mem_cons_of_mem _ hg'))
    by_cases hg : g = "index.xml"
    · subst hg
      simp only [List.cons_append, convertLoop, if_pos rfl]
      simpa [List.filter_cons] using ih'
    · obtain ⟨x, hx⟩ := hpre g (List.mem_cons_self g pre) hg
      simp only [List.cons_append, convertLoop, if_neg hg, hx]
      simp [List.filter_cons, hg, ih'.1, ih'.2]

/-- C5: in directory mode with every per-file conversion succeeding and an
index content available, the write sequence is exactly one output per
non-index source file, named `<file-tag>_<original-basename>`, in source
order, followed by exactly one final `index.xml`; the loop never converts
the index itself and the run ends cleanly. -/
theorem C5_folder_outputs (ft : String)
    (conv : String → Except FolderErr String) (idx : String)
    (files : List String)
    (h : ∀ f ∈ files, f ≠ "index.xml" → ∃ x, conv f = Except.ok x) :
    (folderTransform ft conv (Except.ok idx) files).1.map Prod.fst
      = (files.filter (fun f => f ≠ "index.xml")).map (fun f => ft ++ "_" ++ f)
        ++ ["index.xml"]
    ∧ (folderTransform ft conv (Except.ok idx) files).2 = none := by
  obtain ⟨h1, h2⟩ := convertLoop_ok ft conv files h
  simp [folderTransform, h2, h1]

/-- A converter that succeeds on every file, for witnesses. -/
def convAllOk : String → Except FolderErr String := fun _ => Except.ok "out"

/-- Witness for `C5_folder_outputs` on a two-file directory. -/
theorem C5_folder_outputs_witness :
    (folderTransform "chapter" convAllOk (Except.ok "idx")
        ["a.xml", "index.xml", "b.xml"]).1.map Prod.fst
      = ((["a.xml", "index.xml", "b.xml"].filter
          (fun f => f ≠ "index.xml")).map (fun f => "chapter" ++ "_" ++ f))
        ++ ["index.xml"]
    ∧ (folderTransform "chapter" convAllOk (Except.ok "idx")
        ["a.xml", "index.xml", "b.xml"]).2 = none :=
  C5_folder_outputs "chapter" convAllOk "idx" _
    (fun _ _ _ => ⟨"out", rfl⟩)

/-- C6: if some source file's conversion fails, the folder run aborts
there: the error is surfaced, the only writes are the outputs of the files
preceding the failing one, and in particular no `index.xml` is ever
written. -/
theorem C6_abort_on_failure (ft : String)
    (conv : String → Except FolderErr String)
    (wi : Except FolderErr String) (pre post : List String) (f : String)
    (e : FolderErr)
    (hpre : ∀ g ∈ pre, g ≠ "index.xml" → ∃ x, conv g = Except.ok x)
    (hf : f ≠ "index.xml") (he : conv f = Except.error e) :
    (folderTransform ft conv wi (pre ++ f :: post)).2 = some e
    ∧ (folderTransform ft conv wi (pre ++ f :: post)).1.map Prod.fst
        = (pre.filter (fun g => g ≠ "index.xml")).map (fun g => ft ++ "_" ++ g)
    ∧ "index.xml" ∉ (folderTransform ft conv wi (pre ++ f :: post)).1.map
        Prod.fst := by
  obtain ⟨h1, h2⟩ := convertLoop_error ft conv pre post f e hpre hf he
  have hft : folderTransform ft conv wi (pre ++ f :: post)
      = ((convertLoop ft conv (pre ++ f :: post)).1, some e) := by
    simp [folderTransform, h2]
  refine ⟨by rw [hft], by rw [hft]; exact h1, ?_⟩
  rw [hft]
  intro hmem
  rw [h1] at hmem
  obtain ⟨g, _, hgeq⟩ := List.mem_map.mp hmem
  have hin : '_' ∈ (ft ++ "_" ++ g).data := by
    rw [String.data_append, String.data_append]
    exact List.mem_append.mpr
      (Or.inl (List.mem_append.mpr (Or.inr (by decide))))
  rw [hgeq] at hin
  exact (by decide : '_' ∉ ("index.xml" : String).data) hin

/-- A converter that fails exactly on `b.xml`, for witnesses. -/
def convFailB : String → Except FolderErr String := fun g =>
  if g = "b.xml" then Except.error (FolderErr.convFail "b.xml")
  else Except.ok "out"

/-- Witness for `C6_abort_on_failure`: `a.xml` converts, `b.xml` fails,
`c.xml` is never reached and no index is written. -/
theorem C6_abort_on_failure_witness :
    (folderTransform "chapter" convFailB (Except.ok "idx")
        (["a.xml"] ++ "b.xml" :: ["c.xml"])).2
      = some (FolderErr.convFail "b.xml")
    ∧ (folderTransform "chapter" convFailB (Except.ok "idx")
        (["a.xml"] ++ "b.xml" :: ["c.xml"])).1.map Prod.fst
        = ((["a.xml"] : List String).filter (fun g => g ≠ "index.xml")).map
            (fun g => "chapter" ++ "_" ++ g)
    ∧ "index.xml" ∉ (folderTransform "chapter" convFailB (Except.ok "idx")
        (["a.xml"] ++ "b.xml" :: ["c.xml"])).1.map Prod.fst :=
  C6_abort_on_failure "chapter" convFailB (Except.ok "idx") ["a.xml"]
    ["c.xml"] "b.xml" (FolderErr.convFail "b.xml")
    (fun g hg _ => ⟨"out", by
      simp only [List.mem_singleton] at hg
      subst hg
      rfl⟩)
    (by decide) rfl

/-! ## Index-parsing lemmas -/

/-- A successful reference walk yields exactly the `#`-free `refuri`s, in
document order, each wrapped as `<file-tag>_<refuri>.xml`. -/
theorem collectIncludes_ok (ft : String) (rs : List XNode)
    (incs : List String) (h : collectIncludes ft rs = Except.ok incs) :
    incs = ((rs.filterMap refuriOf).filter
        (fun u => !(u.data.contains '#'))).map
        (fun u => ft ++ "_" ++ u ++ ".xml") := by
  induction rs generalizing incs with
  | nil =>
    simp only [collectIncludes, Except.ok.injEq] at h
    simp [← h]
  | cons r rs ih =>
    cases hr : refuriOf r with
    | none => simp [collectIncludes, hr] at h
    | some u =>
      by_cases hmem : '#' ∈ u.data
      · have h' : collectIncludes ft rs = Except.ok incs := by
          simpa [collectIncludes, hr, hmem] using h
        simp [List.filterMap_cons, hr, List.filter_cons, hmem, ih incs h']
      · cases hrest : collectIncludes ft rs with
        | error e => simp [collectIncludes, hr, hmem, hrest] at h
        | ok rest =>
          have h2 := h
          simp [collectIncludes, hr, hrest, hmem] at h2
          simp [List.filterMap_cons, hr, List.filter_cons, hmem,
            ih rest hrest, ← h2]

/-- Unfolding `Except` bind on a success, for do-notation rewriting. -/
theorem exceptBindOk {e a b : Type} (x : a) (f : a → Except e b) :
    (Except.ok x : Except e a) >>= f = f x := rfl

/-- Unfolding `Except` bind on an error, for do-notation rewriting. -/
theorem exceptBindError {e a b : Type} (x : e) (f : a → Except e b) :
    (Except.error x : Except e a) >>= f = Except.error x := rfl

/-- C4: whenever `parse_index` succeeds, the collected XInclude entries are
exactly the `reference` elements' `refuri`s in document order, with every
`refuri` containing `#` skipped and each survivor named
`<file-tag>_<refuri>.xml`. -/
theorem C4_include_order (ft : String) (doc : XNode) (incs : List String)
    (t : Option String)
    (h : parseIndex ft doc = Except.ok (incs, t)) :
    incs = (((referencesOf doc).filterMap refuriOf).filter
        (fun u => !(u.data.contains '#'))).map
        (fun u => ft ++ "_" ++ u ++ ".xml") := by
  cases hc : collectIncludes ft (referencesOf doc) with
  | error e => simp [parseIndex, hc, exceptBindError] at h
  | ok incs' =>
    cases hf : findSectionTitle doc with
    | none => simp [parseIndex, hc, hf, exceptBindOk] at h
    | some t' =>
      have h2 := h
      simp only [parseIndex, hc, hf, exceptBindOk] at h2
      have heq : incs' = incs := by
        simp only [pure, Except.pure, Except.ok.injEq, Prod.mk.injEq] at h2
        exact h2.1
      exact heq ▸ collectIncludes_ok ft _ incs' hc

/-- A concrete index document: title `T`, references `foo`, anchor `x#y`
and `bar`, in that order. -/
def indexDocC4 : XNode :=
  .elem "document" [] none
    [.elem "section" [] none
      [.elem "title" [] (some "T") [],
       .elem "reference" [("refuri", "foo")] none [],
       .elem "reference" [("refuri", "x#y")] none [],
       .elem "reference" [("refuri", "bar")] none []]]

/-- Witness for `C4_include_order`: the anchor reference is skipped and the
other two survive in order under the `section` file tag. -/
theorem C4_include_order_witness :
    (["section_foo.xml", "section_bar.xml"] : List String)
      = (((referencesOf indexDocC4).filterMap refuriOf).filter
          (fun u => !(u.data.contains '#'))).map
          (fun u => "section" ++ "_" ++ u ++ ".xml") :=
  C4_include_order "section" indexDocC4
    ["section_foo.xml", "section_bar.xml"] (some "T") rfl

/-- The reference walk fails with the missing-`refuri` error as soon as any
reference in the list has no `refuri` attribute. -/
theorem collectIncludes_missing (ft : String) (rs : List XNode)
    (h : none ∈ rs.map refuriOf) :
    collectIncludes ft rs = Except.error FolderErr.missingRefuri := by
  induction rs with
  | nil => simp at h
  | cons r rs ih =>
    cases hr : refuriOf r with
    | none => simp [collectIncludes, hr]
    | some u =>
      have hm : none ∈ rs.map refuriOf := by
        have h2 := h
        simp only [List.map_cons, List.mem_cons] at h2
        rcases h2 with h' | h'
        · rw [hr] at h'
          exact absurd h' (by simp)
        · exact h'
      by_cases hmem : '#' ∈ u.data
      · simp [collectIncludes, hr, hmem, ih hm]
      · simp [collectIncludes, hr, hmem, ih hm, exceptBindError]

/-- C10: `parse_index` is partial — any index document containing a
`reference` element without a `refuri` attribute makes it raise (the `#`
membership test is applied to the missing value), before the title is even
looked at. -/
theorem C10_missing_refuri (ft : String) (doc : XNode)
    (h : none ∈ (referencesOf doc).map refuriOf) :
    parseIndex ft doc = Except.error FolderErr.missingRefuri := by
  simp [parseIndex, collectIncludes_missing ft _ h, exceptBindError]

/-- Witness for `C10_missing_refuri`: one reference without `refuri`. -/
theorem C10_missing_refuri_witness :
    parseIndex "section"
      (XNode.elem "document" [] none
        [XNode.elem "reference" [("refuri", "ok")] none [],
         XNode.elem "reference" [("name", "n")] none []])
      = Except.error FolderErr.missingRefuri :=
  C10_missing_refuri "section" _ (by decide)

/-- C9: when the index document has no `section/title` element, the folder
pipeline fails while parsing the index: the effect trace is empty — the
output directory is not created and nothing is converted or written. -/
theorem C9_title_check_first (ft : String)
    (wi : Option String → List String → Except FolderErr String)
    (conv : String → Except FolderErr String) (dirExists : Bool)
    (files : List String) (doc : XNode)
    (h : findSectionTitle doc = none) :
    (folderRun ft wi conv dirExists files doc).1 = []
    ∧ ((folderRun ft wi conv dirExists files doc).2).isSome = true := by
  cases hc : collectIncludes ft (referencesOf doc) with
  | error e => simp [folderRun, parseIndex, hc, exceptBindError]
  | ok incs => simp [folderRun, parseIndex, hc, h, exceptBindOk]

/-- Witness for `C9_title_check_first`: an index without `section/title`,
a missing output directory and one convertible file — still no effects. -/
theorem C9_title_check_first_witness :
    (folderRun "chapter" bookWriteIndex convAllOk false ["a.xml"]
        (XNode.elem "document" [] none
          [XNode.elem "reference" [("refuri", "ok")] none []])).1 = []
    ∧ ((folderRun "chapter" bookWriteIndex convAllOk false ["a.xml"]
        (XNode.elem "document" [] none
          [XNode.elem "reference" [("refuri", "ok")] none []])).2).isSome
      = true :=
  C9_title_check_first "chapter" bookWriteIndex convAllOk false ["a.xml"] _
    rfl

set_option maxRecDepth 200000 in
/-- C3: on a source directory holding `foo.xml`, `bar.xml` and an
`index.xml` titled `Release Notes` referencing `foo` then `bar`, the book
variant writes `chapter_bar.xml` and `chapter_foo.xml` (one per source
file, in glob order) plus a final `index.xml` whose content carries
`<title>Release Notes</title>`, `xml:id="release-notes"` and the two
XIncludes `chapter_foo.xml` then `chapter_bar.xml` in index order. -/
theorem C3_book_round_trip (conv : String → Except FolderErr String)
    (c1 c2 : String) (dirExists : Bool)
    (h1 : conv "bar.xml" = Except.ok c1)
    (h2 : conv "foo.xml" = Except.ok c2) :
    (bookRun conv dirExists ["bar.xml", "foo.xml", "index.xml"]
        indexDoc3).2 = none
    ∧ fsWriteNames (bookRun conv dirExists
        ["bar.xml", "foo.xml", "index.xml"] indexDoc3).1
      = ["chapter_bar.xml", "chapter_foo.xml", "index.xml"]
    ∧ optContains (writeNamed (bookRun conv dirExists
        ["bar.xml", "foo.xml", "index.xml"] indexDoc3).1 "index.xml")
        "<title>Release Notes</title>" = true
    ∧ optContains (writeNamed (bookRun conv dirExists
        ["bar.xml", "foo.xml", "index.xml"] indexDoc3).1 "index.xml")
        "xml:id=\"release-notes\"" = true
    ∧ optContains (writeNamed (bookRun conv dirExists
        ["bar.xml", "foo.xml", "index.xml"] indexDoc3).1 "index.xml")
        "<xi:include href=\"chapter_foo.xml\"/>\n    <xi:include href=\"chapter_bar.xml\"/>"
      = true := by
  obtain ⟨S, hS⟩ : ∃ s, bookWriteIndex (some "Release Notes")
      ["chapter_foo.xml", "chapter_bar.xml"] = Except.ok s := by
    cases hE : bookWriteIndex (some "Release Notes")
        ["chapter_foo.xml", "chapter_bar.xml"] with
    | ok s => exact ⟨s, rfl⟩
    | error e =>
      have hsome : (bookWriteIndex (some "Release Notes")
          ["chapter_foo.xml", "chapter_bar.xml"]).toOption.isSome
          = true := by decide
      rw [hE] at hsome
      simp [Except.toOption] at hsome
  have hp : parseIndex "chapter" indexDoc3
      = Except.ok (["chapter_foo.xml", "chapter_bar.xml"],
          some "Release Notes") := by rfl
  have hcl : convertLoop "chapter" conv ["bar.xml", "foo.xml", "index.xml"]
      = ([("chapter_bar.xml", c1), ("chapter_foo.xml", c2)], none) := by
    simp [convertLoop, h1, h2]
  have hrun : bookRun conv dirExists ["bar.xml", "foo.xml", "index.xml"]
      indexDoc3
      = ((if dirExists then [] else [FsOp.mkdir])
          ++ [FsOp.write "chapter_bar.xml" c1,
              FsOp.write "chapter_foo.xml" c2, FsOp.write "index.xml" S],
         none) := by
    simp [bookRun, folderRun, hp, folderTransform, hcl, hS]
  have hWN : writeNamed (bookRun conv dirExists
      ["bar.xml", "foo.xml", "index.xml"] indexDoc3).1 "index.xml"
      = some S := by
    rw [hrun]
    cases dirExists <;> simp [writeNamed]
  have content : ∀ pat : String,
      optContains (bookWriteIndex (some "Release Notes")
        ["chapter_foo.xml", "chapter_bar.xml"]).toOption pat = true →
      optContains (some S) pat = true := by
    intro pat hv
    rw [hS] at hv
    simpa [Except.toOption] using hv
  refine ⟨by rw [hrun], ?_, ?_, ?_, ?_⟩
  · rw [hrun]
    cases dirExists <;> simp [fsWriteNames]
  · rw [hWN]
    exact content _ (by decide)
  · rw [hWN]
    exact content _ (by decide)
  · rw [hWN]
    exact content _ (by decide)

/-- Witness for `C3_book_round_trip` with an everywhere-succeeding
converter and an existing output directory. -/
theorem C3_book_round_trip_witness :
    (bookRun convAllOk true ["bar.xml", "foo.xml", "index.xml"]
        indexDoc3).2 = none
    ∧ fsWriteNames (bookRun convAllOk true
        ["bar.xml", "foo.xml", "index.xml"] indexDoc3).1
      = ["chapter_bar.xml", "chapter_foo.xml", "index.xml"]
    ∧ optContains (writeNamed (bookRun convAllOk true
        ["bar.xml", "foo.xml", "index.xml"] indexDoc3).1 "index.xml")
        "<title>Release Notes</title>" = true
    ∧ optContains (writeNamed (bookRun convAllOk true
        ["bar.xml", "foo.xml", "index.xml"] indexDoc3).1 "index.xml")
        "xml:id=\"release-notes\"" = true
    ∧ optContains (writeNamed (bookRun convAllOk true
        ["bar.xml", "foo.xml", "index.xml"] indexDoc3).1 "index.xml")
        "<xi:include href=\"chapter_foo.xml\"/>\n    <xi:include href=\"chapter_bar.xml\"/>"
      = true :=
  C3_book_round_trip convAllOk "out" "out" true rfl rfl
